import Mathlib

/-!
Shallow embedding of the `threads-es` controller (`src/controller/thread/EsThread.ts`)
and of the pool behaviour its tests exercise (`test/pool.test.ts`).

Task correlation ids and opaque result payloads are modelled as `Nat`;
error payloads are the `String` messages the source builds. The asynchronous
parts (the dispatch listener, `terminate`, the handshake) are modelled as
explicit state transitions and event traces.
-/

set_option autoImplicit false

namespace ThreadsEs

/-- Correlation ids (`TaskUID` in `shared/Messages.ts`), modelled as `Nat`. -/
abbrev TaskUID := Nat

/-- Payload values carried by results; the source uses `any`, modelled as `Nat`. -/
abbrev Value := Nat

/-- Worker-to-controller messages (`WorkerMessageType` in `shared/Messages.ts`,
as consumed by `EsThread.ts`): `Init(methodNames)`, `TaskResult(uid, result)`,
`TaskError(uid, errorMessage)`, `UnchaughtError(errorMessage)` (sic), plus a
constructor for any unrecognized tag hitting the `default` switch branch. -/
inductive WorkerMsg where
  | init (methodNames : List String)
  | taskResult (uid : TaskUID) (result : Value)
  | taskError (uid : TaskUID) (errorMessage : String)
  | uncaughtError (errorMessage : String)
  | unknownTag (tag : Nat)
  deriving DecidableEq, Repr

/-- The numeric type tag of a message, used only to build the
`Recieved unexpected WorkerMessage of type:` error strings. -/
def WorkerMsg.tag : WorkerMsg → Nat
  | .init _ => 0
  | .taskResult _ _ => 1
  | .taskError _ _ => 2
  | .uncaughtError _ => 3
  | .unknownTag t => t

/-- A raw proxy-call argument: either a plain value or a
`TransferDescriptor` (a wrapper carrying its `transferables` list,
`shared/TransferDescriptor.ts`). Transferable handles are modelled as `Nat`. -/
inductive RawArg where
  | plain (v : Value)
  | transfer (v : Value) (transferables : List Nat)
  deriving DecidableEq, Repr

/-- Predicate `isTransferDescriptor` from `shared/TransferDescriptor.ts`. -/
def isTransferDescriptor : RawArg → Bool
  | .transfer _ _ => true
  | .plain _ => false

/-- The `transferables` list of an argument ([] for a plain value). -/
def RawArg.transferablesOf : RawArg → List Nat
  | .transfer _ ts => ts
  | .plain _ => []

/-- The `StripTransfer` type of `EsThread.ts` lines 13-16, at the value level:
a `TransferDescriptor<T>` is stripped to its base `T`; anything else is kept. -/
def stripTransfer : RawArg → RawArg
  | .transfer v _ => .plain v
  | .plain v => .plain v

/-- One iteration of the loop in `EsThread.prepareArguments` (lines 181-189):
a transfer descriptor pushes its transferables and is itself pushed onto
`args`; a plain argument is just pushed onto `args`. -/
def prepareArgsStep (acc : List RawArg × List Nat) (arg : RawArg) : List RawArg × List Nat :=
  if isTransferDescriptor arg then
    (acc.1 ++ [arg], acc.2 ++ arg.transferablesOf)
  else
    (acc.1 ++ [arg], acc.2)

/-- Function `EsThread.prepareArguments` (lines 178-192): folds the loop body over the
raw argument list starting from empty `args` and `transferables` arrays. -/
def prepareArguments (rawArgs : List RawArg) : List RawArg × List Nat :=
  rawArgs.foldl prepareArgsStep ([], [])

/-- The settlement state of one `EsTaskPromise`. -/
inductive PromiseState where
  | pending
  | resolvedWith (v : Value)
  | rejectedWith (e : String)
  deriving DecidableEq, Repr

/-- The primitive effects the dispatch listener performs, in program order:
deleting a pending map entry, resolving or rejecting a task promise, and
dispatching an `ErrorEvent` on the thread (the `catch` block, line 174). -/
inductive Action where
  | deleteTask (uid : TaskUID)
  | resolveTask (uid : TaskUID) (v : Value)
  | rejectTask (uid : TaskUID) (e : String)
  | dispatchErrorEvent (msg : String)
  deriving DecidableEq, Repr

/-- Listener `EsThread.taskResultDispatch` (lines 144-176) as the list of effects it
performs on a message, given the current key set of the pending `tasks` map.
A `TaskResult`/`TaskError` for a known uid deletes the entry and then settles
the promise (in that order, lines 153-154 and 161-162); every `throw` is
caught and becomes a dispatched `ErrorEvent` (lines 173-175). -/
def taskResultDispatch (tasks : List TaskUID) (m : WorkerMsg) : List Action :=
  match m with
  | .taskResult uid result =>
      if tasks.contains uid then
        [.deleteTask uid, .resolveTask uid result]
      else
        [.dispatchErrorEvent ("Recived result for invalid task with UID " ++ toString uid)]
  | .taskError uid errorMessage =>
      if tasks.contains uid then
        [.deleteTask uid, .rejectTask uid errorMessage]
      else
        [.dispatchErrorEvent ("Recived error for invalid task with UID " ++ toString uid)]
  | .uncaughtError errorMessage =>
      [.dispatchErrorEvent ("Uncaught error in worker: " ++ errorMessage)]
  | m => [.dispatchErrorEvent ("Recieved unexpected WorkerMessage of type: " ++ toString m.tag)]

/-- Controller-side state of one `EsThread`: the key set of the pending
`tasks` map (line 62), the settlement states of every task promise handed
out so far, and the `ErrorEvent`s dispatched on the thread. -/
structure DispatchState where
  tasks : List TaskUID
  promises : List (TaskUID × PromiseState)
  faults : List String
  deriving DecidableEq, Repr

/-- Getter `EsThread.numQueuedTasks` (line 71): the size of the pending `tasks` map. -/
def numQueuedTasks (s : DispatchState) : Nat := s.tasks.length

/-- Settling an `EsTaskPromise`: resolve/reject takes effect only while the
promise is still pending (JS promise semantics; `EsTask.ts`). -/
def settlePromise (ps : List (TaskUID × PromiseState)) (uid : TaskUID)
    (o : PromiseState) : List (TaskUID × PromiseState) :=
  ps.map (fun p => if p.1 = uid ∧ p.2 = .pending then (uid, o) else p)

/-- Effect of one dispatch `Action` on the thread state. -/
def applyAction (s : DispatchState) (a : Action) : DispatchState :=
  match a with
  | .deleteTask uid => { s with tasks := s.tasks.erase uid }
  | .resolveTask uid v => { s with promises := settlePromise s.promises uid (.resolvedWith v) }
  | .rejectTask uid e => { s with promises := settlePromise s.promises uid (.rejectedWith e) }
  | .dispatchErrorEvent m => { s with faults := s.faults ++ [m] }

/-- Running the dispatch listener on one incoming message: perform the
effects of `taskResultDispatch` in order. -/
def handleMessage (s : DispatchState) (m : WorkerMsg) : DispatchState :=
  (taskResultDispatch s.tasks m).foldl applyAction s

/-- The `ControllerTaskRunMessage` built by a proxy call (lines 198-202). -/
structure RunMessage where
  uid : TaskUID
  method : String
  args : List RawArg
  deriving DecidableEq, Repr

/-- Effect of `Map.set` on the key set of the pending map: a fresh key is appended,
an existing key keeps the map size unchanged. -/
def mapSet (tasks : List TaskUID) (uid : TaskUID) : List TaskUID :=
  if tasks.contains uid then tasks else tasks ++ [uid]

/-- One invocation of the function returned by `EsThread.createProxyFunction`
(lines 194-209): mint a fresh task promise with uid `uid`, prepare the
arguments, build the Run message, record the pending task
(`this.tasks.set`), and post the message with the transfer list.
`getRandomUID` is assumed collision-free, so theorems carry a freshness
hypothesis on `uid`. -/
def proxyInvoke (s : DispatchState) (uid : TaskUID) (method : String)
    (rawArgs : List RawArg) : DispatchState × RunMessage × List Nat :=
  let prepared := prepareArguments rawArgs
  let runMessage : RunMessage := { uid := uid, method := method, args := prepared.1 }
  ({ s with tasks := mapSet s.tasks uid, promises := s.promises ++ [(uid, .pending)] },
   runMessage, prepared.2)

/-- One of the three steps `EsThread.terminate` performs after
`await this.settled()`: post the Terminate message (lines 130-133), detach
the result listener (line 135), close the channel (terminate the worker or
close the port, lines 137-141). -/
inductive TermStep where
  | sentTerminate (forceTerminateShared : Option Bool)
  | detachedListener
  | closedChannel
  deriving DecidableEq, Repr

/-- An event in a terminate run: either a worker message delivered while the
controller is still awaiting `settled()`, or a terminate step. -/
inductive TraceEvent where
  | recv (m : WorkerMsg)
  | term (s : TermStep)
  deriving DecidableEq, Repr

/-- Whether a message settles the task with the given uid
(a `TaskResult` or `TaskError` carrying that uid). -/
def settlesMsg (uid : TaskUID) (m : WorkerMsg) : Bool :=
  match m with
  | .taskResult u _ => u = uid
  | .taskError u _ => u = uid
  | _ => false

/-- Whether every task in `pending` has been settled by one of the
delivered messages: the resolution condition of `Promise.allSettled` over
the pending map snapshot taken by `settled()` (line 105). -/
def allSettled (pending : List TaskUID) (delivered : List WorkerMsg) : Bool :=
  pending.all (fun uid => delivered.any (settlesMsg uid))

/-- Trace semantics of `EsThread.terminate` (lines 125-142): the body first
awaits `settled()`, so the continuation (post Terminate, detach the
listener, close the channel, in that order) runs at the first point where
every task pending at call time has settled; until then incoming messages
are delivered one by one. If the incoming stream never settles them all,
the continuation never runs. -/
def terminateRun (pendingAtCall : List TaskUID) (delivered : List WorkerMsg)
    (incoming : List WorkerMsg) (force : Option Bool) : List TraceEvent :=
  if allSettled pendingAtCall delivered then
    [.term (.sentTerminate force), .term .detachedListener, .term .closedChannel]
  else
    match incoming with
    | [] => []
    | m :: rest => .recv m :: terminateRun pendingAtCall (delivered ++ [m]) rest force

/-- Method `EsThread.terminate` started with the snapshot `pendingAtCall` of the
pending map and the stream `incoming` of messages the worker will deliver. -/
def terminate (pendingAtCall : List TaskUID) (incoming : List WorkerMsg)
    (force : Option Bool) : List TraceEvent :=
  terminateRun pendingAtCall [] incoming force

/-- The eventual fate of one pending task promise: the instant at which it
settles and whether it resolves or rejects. -/
inductive TaskOutcome where
  | resolvesWith (v : Value)
  | rejectsWith (e : String)
  deriving DecidableEq, Repr

/-- A pending task future: its settlement instant and outcome. -/
abbrev TaskFuture := Nat × TaskOutcome

/-- Whether a future eventually rejects. -/
def isRejection : TaskFuture → Bool
  | (_, .rejectsWith _) => true
  | (_, .resolvesWith _) => false

/-- The instant at which the last of the futures settles. -/
def maxSettleTime (ts : List TaskFuture) : Nat :=
  (ts.map Prod.fst).foldr max 0

/-- The earliest rejection among the futures (earliest instant, ties broken
by list position): the rejection `Promise.all` propagates. -/
def firstRejection : List TaskFuture → Option (Nat × String)
  | [] => none
  | (t, TaskOutcome.rejectsWith e) :: rest =>
      match firstRejection rest with
      | some r => if r.1 < t then some r else some (t, e)
      | none => some (t, e)
  | (_, TaskOutcome.resolvesWith _) :: rest => firstRejection rest

/-- Model of `Promise.allSettled` over the snapshot of pending task futures:
completes once every future has settled, regardless of outcome, and never
rejects. `EsThread.settled` (lines 104-106) awaits exactly this. -/
def settled (ts : List TaskFuture) : Nat × Except String Unit :=
  (maxSettleTime ts, Except.ok ())

/-- Model of `Promise.all` over the snapshot of pending task futures:
rejects at the first rejection with its error, otherwise resolves once all
have resolved. `EsThread.resolved` (lines 112-114) awaits exactly this. -/
def resolved (ts : List TaskFuture) : Nat × Except String Unit :=
  match firstRejection ts with
  | some r => (r.1, Except.error r.2)
  | none => (maxSettleTime ts, Except.ok ())

/-- What reaches the handshake promise of `EsThread.initThread` first:
the first worker message, or the `withTimeout` timeout. -/
inductive HandshakeInput where
  | firstMessage (m : WorkerMsg)
  | timedOut
  deriving DecidableEq, Repr

/-- A fully initialized thread as `initThread` returns it: a proxy entry for
every announced method name (`createMethodsProxy`, lines 211-219) and the
result listener attached (line 260). -/
structure SpawnedThread where
  methods : List String
  listenerAttached : Bool
  deriving DecidableEq, Repr

/-- The outcome of `EsThread.Spawn`: either an initialized thread or the
rejection error, together with whether the channel was torn down
(worker terminated or port closed). -/
structure SpawnResult where
  outcome : Except String SpawnedThread
  channelClosed : Bool
  deriving Repr

/-- The handshake promise of `initThread` (lines 224-246) combined with
`withTimeout`: the first event decides. `Init` resolves with the method
names; `UnchaughtError` rejects with its message; any other message rejects
with the unexpected-type error; the timeout rejects with the timeout error. -/
def initMessageHandler (timeout : Nat) (input : HandshakeInput) :
    Except String (List String) :=
  match input with
  | .timedOut =>
      .error ("Timeout: Did not receive an init message from worker after "
        ++ toString timeout ++ "ms")
  | .firstMessage (.init methodNames) => .ok methodNames
  | .firstMessage (.uncaughtError e) => .error e
  | .firstMessage m =>
      .error ("Recieved unexpected WorkerMessage of type: " ++ toString m.tag)

/-- Method `EsThread.initThread` (lines 221-263): on a handshake failure the catch
block tears the channel down (lines 248-256) and rethrows; on success it
builds the method proxy from the announced names, attaches the result
listener, and returns the thread. -/
def initThread (timeout : Nat) (input : HandshakeInput) : SpawnResult :=
  match initMessageHandler timeout input with
  | .error e => { outcome := .error e, channelClosed := true }
  | .ok methodNames =>
      { outcome := .ok { methods := methodNames, listenerAttached := true },
        channelClosed := false }

/-- Method `EsThread.Spawn` (lines 98-101): constructs the wrapper and runs
`initThread`. -/
def Spawn (timeout : Nat) (input : HandshakeInput) : SpawnResult :=
  initThread timeout input

/-- Modelled from the spec: the `EsThreadPool` source file is not under
`src/` (only `test/pool.test.ts` is). Spec section 4.2: `queue` selects, at
call time, the member thread with the fewest currently pending tasks,
breaking ties by lowest spawn index. `loads` is the list of the members
`numQueuedTasks`, indexed by spawn order; the result is the selected index
(first index attaining the minimum load). -/
def selectThread : List Nat → Nat
  | [] => 0
  | [_] => 0
  | l :: rest =>
      let j := selectThread rest
      if rest.getD j 0 < l then j + 1 else 0

/-- Modelled from the spec: `pool.queue(cb)` invokes `cb` with the selected
thread synchronously, and `cb` invokes a proxied method, so the selected
thread gains one pending task within the same uninterrupted turn
(spec sections 4.2 and 8). Returns the selected index and the new loads. -/
def queue (loads : List Nat) : Nat × List Nat :=
  let i := selectThread loads
  (i, loads.set i (loads.getD i 0 + 1))

/-- Running `n` consecutive `queue` calls issued before any task settles: the list
of selected indices and the final loads. -/
def queueSeq : Nat → List Nat → List Nat × List Nat
  | 0, loads => ([], loads)
  | n + 1, loads =>
      let r := queue loads
      let rest := queueSeq n r.2
      (r.1 :: rest.1, rest.2)

/-- Modelled from the spec: `pool.settled()` is the conjunction (wait for
all) of every member thread `settled()` (spec section 4.2); each member
`settled()` never rejects, so the conjunction resolves at the latest member
completion instant and never rejects. Each member is given by the snapshot
of its pending task futures. -/
def poolSettled (members : List (List TaskFuture)) : Nat × Except String Unit :=
  ((members.map (fun m => (settled m).1)).foldr max 0, Except.ok ())

/-- Modelled from the spec: `pool.terminate()` calls every member thread
`terminate()` (spec section 4.2). Each member is given by the snapshot of
its pending uids and its incoming message stream; the result is each member
terminate trace. -/
def poolTerminate (members : List (List TaskUID × List WorkerMsg)) :
    List (List TraceEvent) :=
  members.map (fun m => terminate m.1 m.2 none)

/-! ## Helper lemmas -/

theorem prepareArgs_foldl (l : List RawArg) (acc : List RawArg × List Nat) :
    l.foldl prepareArgsStep acc =
      (acc.1 ++ l, acc.2 ++ (l.map RawArg.transferablesOf).flatten) := by
  induction l generalizing acc with
  | nil => simp
  | cons a rest ih =>
      cases a with
      | plain v =>
          simp [prepareArgsStep, isTransferDescriptor, RawArg.transferablesOf, ih]
      | transfer v ts =>
          simp [prepareArgsStep, isTransferDescriptor, RawArg.transferablesOf, ih]

theorem getD_append_cons {α : Type} (l1 l2 : List α) (a d : α) :
    (l1 ++ a :: l2).getD l1.length d = a := by
  induction l1 with
  | nil => rfl
  | cons b t ih => simpa using ih

theorem handle_result_mem (s : DispatchState) (uid : TaskUID) (v : Value)
    (h : uid ∈ s.tasks) :
    handleMessage s (WorkerMsg.taskResult uid v) =
      { s with tasks := s.tasks.erase uid,
               promises := settlePromise s.promises uid (.resolvedWith v) } := by
  simp [handleMessage, taskResultDispatch, applyAction, h]

theorem handle_result_not_mem (s : DispatchState) (uid : TaskUID) (v : Value)
    (h : uid ∉ s.tasks) :
    handleMessage s (WorkerMsg.taskResult uid v) =
      { s with faults :=
          s.faults ++ ["Recived result for invalid task with UID " ++ toString uid] } := by
  simp [handleMessage, taskResultDispatch, applyAction, h]

theorem handle_error_mem (s : DispatchState) (uid : TaskUID) (e : String)
    (h : uid ∈ s.tasks) :
    handleMessage s (WorkerMsg.taskError uid e) =
      { s with tasks := s.tasks.erase uid,
               promises := settlePromise s.promises uid (.rejectedWith e) } := by
  simp [handleMessage, taskResultDispatch, applyAction, h]

theorem handle_error_not_mem (s : DispatchState) (uid : TaskUID) (e : String)
    (h : uid ∉ s.tasks) :
    handleMessage s (WorkerMsg.taskError uid e) =
      { s with faults :=
          s.faults ++ ["Recived error for invalid task with UID " ++ toString uid] } := by
  simp [handleMessage, taskResultDispatch, applyAction, h]

theorem handle_uncaught (s : DispatchState) (e : String) :
    handleMessage s (WorkerMsg.uncaughtError e) =
      { s with faults := s.faults ++ ["Uncaught error in worker: " ++ e] } := by
  simp [handleMessage, taskResultDispatch, applyAction]

theorem handle_unknown_tag (s : DispatchState) (t : Nat) :
    handleMessage s (WorkerMsg.unknownTag t) =
      { s with faults :=
          s.faults ++ ["Recieved unexpected WorkerMessage of type: " ++ toString t] } := by
  simp [handleMessage, taskResultDispatch, applyAction, WorkerMsg.tag]

theorem handle_init_msg (s : DispatchState) (names : List String) :
    handleMessage s (WorkerMsg.init names) =
      { s with faults :=
          s.faults ++ ["Recieved unexpected WorkerMessage of type: "
            ++ toString (WorkerMsg.init names).tag] } := by
  simp [handleMessage, taskResultDispatch, applyAction]

/-! ## Claim theorems -/

/-- C7: for every proxy-method invocation, the `args` sequence placed in the
Run message is exactly the input argument list (order preserved, transfer
and plain arguments not reordered), and the accompanying transfer list is
the concatenation, in argument order, of the transfer lists of the
transfer-marked arguments. -/
theorem run_message_args_order_and_transfer_concat (s : DispatchState)
    (uid : TaskUID) (method : String) (rawArgs : List RawArg) :
    (proxyInvoke s uid method rawArgs).2.1.args = rawArgs ∧
    (proxyInvoke s uid method rawArgs).2.2 =
      (rawArgs.map RawArg.transferablesOf).flatten := by
  simp [proxyInvoke, prepareArguments, prepareArgs_foldl]

/-- C9: a transfer-marked argument is placed into the Run message args
sequence as the transfer descriptor itself; the controller performs no
stripping, even though the declared proxy types (the `StripTransfer` type)
strip the descriptor down to its base value, which is a different value. -/
theorem run_message_keeps_transfer_descriptor (s : DispatchState)
    (uid : TaskUID) (method : String) (pre post : List RawArg)
    (v : Value) (ts : List Nat) (d : RawArg) :
    (proxyInvoke s uid method
        (pre ++ RawArg.transfer v ts :: post)).2.1.args.getD pre.length d
      = RawArg.transfer v ts ∧
    stripTransfer (RawArg.transfer v ts) = RawArg.plain v ∧
    RawArg.plain v ≠ RawArg.transfer v ts := by
  refine ⟨?_, rfl, by intro h; cases h⟩
  have h1 : (prepareArguments (pre ++ RawArg.transfer v ts :: post)).1
      = pre ++ RawArg.transfer v ts :: post := by
    rw [prepareArguments, prepareArgs_foldl]
    simp
  have h2 : (proxyInvoke s uid method
      (pre ++ RawArg.transfer v ts :: post)).2.1.args
      = pre ++ RawArg.transfer v ts :: post := h1
  rw [h2, getD_append_cons]

/-- C2: `numQueuedTasks` is the current size of the pending-task mapping;
a proxy invocation with a fresh uid grows it by exactly 1 synchronously;
each settlement (result or error) shrinks it by exactly 1 and does so only
once (a redelivery for the same uid leaves it unchanged); as a natural
number it is never negative. -/
theorem numQueuedTasks_accounting (s : DispatchState) (uid : TaskUID)
    (method : String) (rawArgs : List RawArg) (v : Value) (e : String)
    (hfresh : s.tasks.contains uid = false) :
    numQueuedTasks s = s.tasks.length ∧
    numQueuedTasks (proxyInvoke s uid method rawArgs).1 = numQueuedTasks s + 1 ∧
    numQueuedTasks (handleMessage (proxyInvoke s uid method rawArgs).1
        (WorkerMsg.taskResult uid v)) = numQueuedTasks s ∧
    numQueuedTasks (handleMessage (proxyInvoke s uid method rawArgs).1
        (WorkerMsg.taskError uid e)) = numQueuedTasks s ∧
    numQueuedTasks (handleMessage (handleMessage (proxyInvoke s uid method rawArgs).1
        (WorkerMsg.taskResult uid v)) (WorkerMsg.taskResult uid v)) = numQueuedTasks s ∧
    (∀ s2 : DispatchState, s2.tasks.contains uid = true →
      numQueuedTasks (handleMessage s2 (WorkerMsg.taskResult uid v)) + 1
        = numQueuedTasks s2 ∧
      numQueuedTasks (handleMessage s2 (WorkerMsg.taskError uid e)) + 1
        = numQueuedTasks s2) := by
  have hmem : uid ∉ s.tasks := by simpa using hfresh
  have htasks : (proxyInvoke s uid method rawArgs).1.tasks = s.tasks ++ [uid] := by
    simp [proxyInvoke, mapSet, hmem]
  have hmem1 : uid ∈ (proxyInvoke s uid method rawArgs).1.tasks := by
    rw [htasks]; simp
  have herase : ((s.tasks ++ [uid]).erase uid) = s.tasks := by
    rw [List.erase_append_right _ hmem]; simp
  have hres := handle_result_mem (proxyInvoke s uid method rawArgs).1 uid v hmem1
  have herr := handle_error_mem (proxyInvoke s uid method rawArgs).1 uid e hmem1
  refine ⟨rfl, ?_, ?_, ?_, ?_, ?_⟩
  · simp [numQueuedTasks, htasks]
  · rw [hres]; simp [numQueuedTasks, htasks, herase]
  · rw [herr]; simp [numQueuedTasks, htasks, herase]
  · rw [hres]
    have hmem2 : uid ∉ ((proxyInvoke s uid method rawArgs).1.tasks.erase uid) := by
      rw [htasks, herase]; exact hmem
    rw [handle_result_not_mem _ uid v hmem2]
    simp [numQueuedTasks, htasks, herase]
  · intro s2 hc2
    have hm2 : uid ∈ s2.tasks := by simpa using hc2
    constructor
    · rw [handle_result_mem s2 uid v hm2]
      simpa [numQueuedTasks] using List.length_erase_add_one hm2
    · rw [handle_error_mem s2 uid e hm2]
      simpa [numQueuedTasks] using List.length_erase_add_one hm2

/-- C4: the post-handshake listener resolves and evicts on a `TaskResult`
for a known uid, rejects (with the carried message) and evicts on a
`TaskError` for a known uid, and turns an `UncaughtError`, a result or
error for an unknown uid, or an unrecognized tag into a dispatched fault
notification that leaves the pending mapping and every promise untouched;
nothing is silently dropped. Settlement touches only the matching promise. -/
theorem dispatch_message_semantics (s : DispatchState) (uid : TaskUID)
    (v : Value) (e msg : String) (t : Nat) (names : List String) :
    (uid ∈ s.tasks →
      handleMessage s (WorkerMsg.taskResult uid v) =
        { s with tasks := s.tasks.erase uid,
                 promises := settlePromise s.promises uid (.resolvedWith v) } ∧
      handleMessage s (WorkerMsg.taskError uid e) =
        { s with tasks := s.tasks.erase uid,
                 promises := settlePromise s.promises uid (.rejectedWith e) }) ∧
    ((uid, PromiseState.pending) ∈ s.promises →
      (uid, PromiseState.resolvedWith v) ∈ settlePromise s.promises uid (.resolvedWith v) ∧
      (uid, PromiseState.rejectedWith e) ∈ settlePromise s.promises uid (.rejectedWith e)) ∧
    (∀ p ∈ s.promises, p.1 ≠ uid →
      p ∈ settlePromise s.promises uid (.resolvedWith v)) ∧
    (uid ∉ s.tasks →
      handleMessage s (WorkerMsg.taskResult uid v) =
        { s with faults :=
            s.faults ++ ["Recived result for invalid task with UID " ++ toString uid] } ∧
      handleMessage s (WorkerMsg.taskError uid e) =
        { s with faults :=
            s.faults ++ ["Recived error for invalid task with UID " ++ toString uid] }) ∧
    handleMessage s (WorkerMsg.uncaughtError msg) =
      { s with faults := s.faults ++ ["Uncaught error in worker: " ++ msg] } ∧
    handleMessage s (WorkerMsg.unknownTag t) =
      { s with faults :=
          s.faults ++ ["Recieved unexpected WorkerMessage of type: " ++ toString t] } ∧
    handleMessage s (WorkerMsg.init names) =
      { s with faults :=
          s.faults ++ ["Recieved unexpected WorkerMessage of type: "
            ++ toString (WorkerMsg.init names).tag] } := by
  refine ⟨fun h => ⟨handle_result_mem s uid v h, handle_error_mem s uid e h⟩,
    fun hp => ⟨?_, ?_⟩, ?_,
    fun h => ⟨handle_result_not_mem s uid v h, handle_error_not_mem s uid e h⟩,
    handle_uncaught s msg, handle_unknown_tag s t, handle_init_msg s names⟩
  · simp only [settlePromise]
    exact List.mem_map.mpr ⟨(uid, PromiseState.pending), hp, by simp⟩
  · simp only [settlePromise]
    exact List.mem_map.mpr ⟨(uid, PromiseState.pending), hp, by simp⟩
  · intro p hp hne
    simp only [settlePromise]
    exact List.mem_map.mpr ⟨p, hp, by simp [hne]⟩

/-- C10: for a settling message the dispatch deletes the pending entry
strictly before settling the promise (the effect list is delete first, then
resolve or reject); at the deletion point the task is gone from the pending
mapping and no longer counted by `numQueuedTasks`; and a second result or
error carrying the same uid settles no promise. -/
theorem eviction_precedes_settlement (s : DispatchState) (uid : TaskUID)
    (v : Value) (e : String) (hmem : uid ∈ s.tasks) (hnodup : s.tasks.Nodup) :
    taskResultDispatch s.tasks (WorkerMsg.taskResult uid v)
      = [Action.deleteTask uid, Action.resolveTask uid v] ∧
    taskResultDispatch s.tasks (WorkerMsg.taskError uid e)
      = [Action.deleteTask uid, Action.rejectTask uid e] ∧
    uid ∉ (applyAction s (Action.deleteTask uid)).tasks ∧
    numQueuedTasks (applyAction s (Action.deleteTask uid)) + 1 = numQueuedTasks s ∧
    (handleMessage (handleMessage s (WorkerMsg.taskResult uid v))
        (WorkerMsg.taskResult uid v)).promises
      = (handleMessage s (WorkerMsg.taskResult uid v)).promises ∧
    (handleMessage (handleMessage s (WorkerMsg.taskResult uid v))
        (WorkerMsg.taskError uid e)).promises
      = (handleMessage s (WorkerMsg.taskResult uid v)).promises := by
  have hnm : uid ∉ s.tasks.erase uid := by
    simp [List.Nodup.mem_erase_iff hnodup]
  have hs1 := handle_result_mem s uid v hmem
  have hnm1 : uid ∉ (handleMessage s (WorkerMsg.taskResult uid v)).tasks := by
    rw [hs1]; exact hnm
  refine ⟨by simp [taskResultDispatch, hmem], by simp [taskResultDispatch, hmem],
    by simp [applyAction, List.Nodup.mem_erase_iff hnodup], ?_, ?_, ?_⟩
  · simpa [applyAction, numQueuedTasks] using List.length_erase_add_one hmem
  · rw [handle_result_not_mem _ uid v hnm1]
  · rw [handle_error_not_mem _ uid e hnm1]

theorem terminateRun_close (pending : List TaskUID) (force : Option Bool) :
    ∀ (incoming delivered : List WorkerMsg),
      TraceEvent.term TermStep.closedChannel ∈ terminateRun pending delivered incoming force →
      ∃ p q, incoming = p ++ q ∧ allSettled pending (delivered ++ p) = true ∧
        terminateRun pending delivered incoming force =
          p.map TraceEvent.recv ++
            [.term (.sentTerminate force), .term .detachedListener, .term .closedChannel] := by
  intro incoming
  induction incoming with
  | nil =>
      intro delivered h
      by_cases hs : allSettled pending delivered = true
      · exact ⟨[], [], rfl, by simpa using hs, by simp [terminateRun, hs]⟩
      · rw [terminateRun, if_neg hs] at h
        simp at h
  | cons m rest ih =>
      intro delivered h
      by_cases hs : allSettled pending delivered = true
      · exact ⟨[], m :: rest, rfl, by simpa using hs, by simp [terminateRun, hs]⟩
      · rw [terminateRun, if_neg hs] at h
        have htail : TraceEvent.term TermStep.closedChannel ∈
            terminateRun pending (delivered ++ [m]) rest force := by
          rcases List.mem_cons.mp h with h1 | h1
          · cases h1
          · exact h1
        obtain ⟨p, q, heq, hset, htr⟩ := ih (delivered ++ [m]) htail
        refine ⟨m :: p, q, by simp [heq], ?_, ?_⟩
        · simpa [List.append_assoc] using hset
        · rw [terminateRun, if_neg hs, htr]
          simp

theorem terminateRun_live (pending : List TaskUID) (force : Option Bool) :
    ∀ (incoming delivered : List WorkerMsg),
      allSettled pending (delivered ++ incoming) = true →
      TraceEvent.term TermStep.closedChannel ∈ terminateRun pending delivered incoming force := by
  intro incoming
  induction incoming with
  | nil =>
      intro delivered h
      rw [List.append_nil] at h
      rw [terminateRun, if_pos h]
      simp
  | cons m rest ih =>
      intro delivered h
      by_cases hs : allSettled pending delivered = true
      · rw [terminateRun, if_pos hs]; simp
      · rw [terminateRun, if_neg hs]
        refine List.mem_cons.mpr (Or.inr ?_)
        exact ih (delivered ++ [m]) (by simpa [List.append_assoc] using h)

/-- C1: the channel is closed only after every task pending at the moment
`terminate` was called has settled: whenever the trace of a terminate run
contains the channel-close step, the run consists of a delivered prefix
that settles every pending task, followed by sending the Terminate message,
detaching the result listener, and closing the channel, in that order; and
once the incoming messages settle every pending task the close does occur. -/
theorem terminate_drains_before_close (pending : List TaskUID)
    (incoming : List WorkerMsg) (force : Option Bool) :
    (TraceEvent.term TermStep.closedChannel ∈ terminate pending incoming force →
      ∃ p q, incoming = p ++ q ∧ allSettled pending p = true ∧
        (∀ uid ∈ pending, ∃ m ∈ p, settlesMsg uid m = true) ∧
        terminate pending incoming force =
          p.map TraceEvent.recv ++
            [.term (.sentTerminate force), .term .detachedListener,
             .term .closedChannel]) ∧
    (allSettled pending incoming = true →
      TraceEvent.term TermStep.closedChannel ∈ terminate pending incoming force) := by
  constructor
  · intro h
    obtain ⟨p, q, heq, hset, htr⟩ := terminateRun_close pending force incoming [] h
    rw [List.nil_append] at hset
    refine ⟨p, q, heq, hset, ?_, htr⟩
    intro uid huid
    have := (List.all_eq_true.mp hset) uid huid
    simpa [List.any_eq_true] using this
  · intro h
    exact terminateRun_live pending force incoming [] (by simpa using h)

theorem maxSettleTime_cons (a : TaskFuture) (ts : List TaskFuture) :
    maxSettleTime (a :: ts) = max a.1 (maxSettleTime ts) := by
  simp [maxSettleTime]

theorem le_maxSettleTime (ts : List TaskFuture) (f : TaskFuture) (h : f ∈ ts) :
    f.1 ≤ maxSettleTime ts := by
  induction ts with
  | nil => cases h
  | cons a rest ih =>
      rw [maxSettleTime_cons]
      rcases List.mem_cons.mp h with h1 | h1
      · subst h1; exact Nat.le_max_left _ _
      · exact le_trans (ih h1) (Nat.le_max_right _ _)

theorem firstRejection_none_iff (ts : List TaskFuture) :
    firstRejection ts = none ↔ ∀ f ∈ ts, isRejection f = false := by
  induction ts with
  | nil => simp [firstRejection]
  | cons a rest ih =>
      obtain ⟨t, o⟩ := a
      cases o with
      | resolvesWith v => simp [firstRejection, ih, isRejection]
      | rejectsWith e =>
          cases hfr : firstRejection rest with
          | none => simp [firstRejection, hfr, isRejection]
          | some r =>
              rw [firstRejection, hfr]
              dsimp only
              constructor
              · intro h; split at h <;> cases h
              · intro h
                have := h (t, TaskOutcome.rejectsWith e) (List.mem_cons_self _ _)
                simp [isRejection] at this

theorem firstRejection_spec (ts : List TaskFuture) :
    ∀ (t : Nat) (e : String), firstRejection ts = some (t, e) →
      (t, TaskOutcome.rejectsWith e) ∈ ts ∧
      ∀ f ∈ ts, isRejection f = true → t ≤ f.1 := by
  induction ts with
  | nil => intro t e h; simp [firstRejection] at h
  | cons a rest ih =>
      intro t e h
      obtain ⟨ta, o⟩ := a
      cases o with
      | resolvesWith v =>
          rw [firstRejection] at h
          obtain ⟨hmem, hmin⟩ := ih t e h
          refine ⟨List.mem_cons_of_mem _ hmem, ?_⟩
          intro f hf hrej
          rcases List.mem_cons.mp hf with h1 | h1
          · subst h1; simp [isRejection] at hrej
          · exact hmin f h1 hrej
      | rejectsWith ea =>
          rw [firstRejection] at h
          cases hfr : firstRejection rest with
          | none =>
              rw [hfr] at h
              dsimp only at h
              simp at h
              obtain ⟨rfl, rfl⟩ := h
              refine ⟨List.mem_cons_self _ _, ?_⟩
              intro f hf hrej
              rcases List.mem_cons.mp hf with h1 | h1
              · subst h1; exact le_refl _
              · have := (firstRejection_none_iff rest).mp hfr f h1
                rw [this] at hrej; cases hrej
          | some r =>
              rw [hfr] at h
              dsimp only at h
              by_cases hlt : r.1 < ta
              · rw [if_pos hlt] at h
                rw [h] at hfr
                obtain ⟨hmem, hmin⟩ := ih t e hfr
                refine ⟨List.mem_cons_of_mem _ hmem, ?_⟩
                intro f hf hrej
                rcases List.mem_cons.mp hf with h1 | h1
                · subst h1
                  have hr : r = (t, e) := by injection h
                  have ht : t = r.1 := by rw [hr]
                  exact ht ▸ le_of_lt hlt
                · exact hmin f h1 hrej
              · rw [if_neg hlt] at h
                simp at h
                obtain ⟨rfl, rfl⟩ := h
                obtain ⟨hmem, hmin⟩ := ih r.1 r.2 (by simpa using hfr)
                refine ⟨List.mem_cons_self _ _, ?_⟩
                intro f hf hrej
                rcases List.mem_cons.mp hf with h1 | h1
                · subst h1; exact le_refl _
                · exact le_trans (le_of_not_lt hlt) (hmin f h1 hrej)

/-- C6: `settled()` waits for every task pending at call time to reach a
terminal state (it completes at the last settlement instant) and itself
never rejects; `resolved()` succeeds exactly when every pending task
resolves, and on any rejection it fails eagerly, at the earliest rejection
instant, with the error of that rejection. -/
theorem settled_resolved_semantics (ts : List TaskFuture) :
    (settled ts).2 = Except.ok () ∧
    (settled ts).1 = maxSettleTime ts ∧
    (∀ f ∈ ts, f.1 ≤ (settled ts).1) ∧
    ((resolved ts).2 = Except.ok () ↔ ∀ f ∈ ts, isRejection f = false) ∧
    ((∀ f ∈ ts, isRejection f = false) →
      resolved ts = (maxSettleTime ts, Except.ok ())) ∧
    (∀ t e, firstRejection ts = some (t, e) →
      resolved ts = (t, Except.error e) ∧
      (t, TaskOutcome.rejectsWith e) ∈ ts ∧
      ∀ f ∈ ts, isRejection f = true → t ≤ f.1) := by
  refine ⟨rfl, rfl, fun f hf => le_maxSettleTime ts f hf, ?_, ?_, ?_⟩
  · rw [← firstRejection_none_iff]
    cases hfr : firstRejection ts <;> simp [resolved, hfr]
  · intro hall
    have hnone := (firstRejection_none_iff ts).mpr hall
    simp [resolved, hnone]
  · intro t e h
    obtain ⟨hmem, hmin⟩ := firstRejection_spec ts t e h
    exact ⟨by simp [resolved, h], hmem, hmin⟩

/-- C3: `Spawn` fails and tears the channel down when the handshake times
out (with a timeout-identifying error), when an `UncaughtError` arrives
before `Init`, or when any non-`Init` message arrives first; it never
returns a partially initialized thread: a successful spawn comes exactly
from an `Init` message, carries a proxy entry for every announced method
name, has the result listener attached, and leaves the channel open. -/
theorem spawn_semantics (timeout : Nat) (input : HandshakeInput) :
    (input = HandshakeInput.timedOut →
      Spawn timeout input =
        { outcome := Except.error
            ("Timeout: Did not receive an init message from worker after "
              ++ toString timeout ++ "ms"),
          channelClosed := true }) ∧
    (∀ e, input = HandshakeInput.firstMessage (WorkerMsg.uncaughtError e) →
      Spawn timeout input = { outcome := Except.error e, channelClosed := true }) ∧
    (∀ m, input = HandshakeInput.firstMessage m →
      (∀ names, m ≠ WorkerMsg.init names) →
      (Spawn timeout input).channelClosed = true ∧
      ∃ e, (Spawn timeout input).outcome = Except.error e) ∧
    (∀ names, input = HandshakeInput.firstMessage (WorkerMsg.init names) →
      Spawn timeout input =
        { outcome := Except.ok { methods := names, listenerAttached := true },
          channelClosed := false }) ∧
    (∀ th, (Spawn timeout input).outcome = Except.ok th →
      ∃ names, input = HandshakeInput.firstMessage (WorkerMsg.init names) ∧
        th.methods = names ∧ th.listenerAttached = true ∧
        (Spawn timeout input).channelClosed = false) := by
  refine ⟨?_, ?_, ?_, ?_, ?_⟩
  · rintro rfl
    simp [Spawn, initThread, initMessageHandler]
  · rintro e rfl
    simp [Spawn, initThread, initMessageHandler]
  · rintro m rfl hne
    cases m with
    | init names => exact absurd rfl (hne names)
    | taskResult uid v =>
        exact ⟨rfl, _, rfl⟩
    | taskError uid e =>
        exact ⟨rfl, _, rfl⟩
    | uncaughtError e =>
        exact ⟨rfl, _, rfl⟩
    | unknownTag t =>
        exact ⟨rfl, _, rfl⟩
  · rintro names rfl
    simp [Spawn, initThread, initMessageHandler]
  · intro th h
    cases input with
    | timedOut => simp [Spawn, initThread, initMessageHandler] at h
    | firstMessage m =>
        cases m with
        | init names =>
            refine ⟨names, rfl, ?_, ?_, rfl⟩
            · have hth : th = { methods := names, listenerAttached := true } := by
                simpa [Spawn, initThread, initMessageHandler] using h.symm
              rw [hth]
            · have hth : th = { methods := names, listenerAttached := true } := by
                simpa [Spawn, initThread, initMessageHandler] using h.symm
              rw [hth]
        | taskResult uid v => simp [Spawn, initThread, initMessageHandler] at h
        | taskError uid e => simp [Spawn, initThread, initMessageHandler] at h
        | uncaughtError e => simp [Spawn, initThread, initMessageHandler] at h
        | unknownTag t => simp [Spawn, initThread, initMessageHandler] at h

theorem selectThread_cons (x : Nat) (l : List Nat) (h : l ≠ []) :
    selectThread (x :: l) =
      if l.getD (selectThread l) 0 < x then selectThread l + 1 else 0 := by
  cases l with
  | nil => cases h rfl
  | cons y t => rfl

theorem selectThread_lt_length (loads : List Nat) (h : loads ≠ []) :
    selectThread loads < loads.length := by
  induction loads with
  | nil => cases h rfl
  | cons x rest ih =>
      cases rest with
      | nil => simp [selectThread]
      | cons y t =>
          rw [selectThread_cons x (y :: t) (by simp)]
          split
          · exact Nat.succ_lt_succ (ih (by simp))
          · simp

theorem selectThread_min (loads : List Nat) :
    ∀ j, j < loads.length →
      loads.getD (selectThread loads) 0 ≤ loads.getD j 0 := by
  induction loads with
  | nil => intro j hj; simp at hj
  | cons x rest ih =>
      cases rest with
      | nil =>
          intro j hj
          have hj0 : j = 0 := Nat.lt_one_iff.mp (by simpa using hj)
          subst hj0
          simp [selectThread]
      | cons y t =>
          intro j hj
          rw [selectThread_cons x (y :: t) (by simp)]
          by_cases hlt : (y :: t).getD (selectThread (y :: t)) 0 < x
          · rw [if_pos hlt, List.getD_cons_succ]
            cases j with
            | zero => rw [List.getD_cons_zero]; exact le_of_lt hlt
            | succ j' =>
                rw [List.getD_cons_succ]
                exact ih j' (by simpa using hj)
          · rw [if_neg hlt, List.getD_cons_zero]
            cases j with
            | zero => rw [List.getD_cons_zero]
            | succ j' =>
                rw [List.getD_cons_succ]
                exact le_trans (le_of_not_lt hlt) (ih j' (by simpa using hj))

theorem selectThread_tie (loads : List Nat) :
    ∀ j, j < selectThread loads →
      loads.getD (selectThread loads) 0 < loads.getD j 0 := by
  induction loads with
  | nil => intro j hj; simp [selectThread] at hj
  | cons x rest ih =>
      cases rest with
      | nil => intro j hj; simp [selectThread] at hj
      | cons y t =>
          intro j hj
          rw [selectThread_cons x (y :: t) (by simp)] at hj ⊢
          by_cases hlt : (y :: t).getD (selectThread (y :: t)) 0 < x
          · rw [if_pos hlt] at hj ⊢
            rw [List.getD_cons_succ]
            cases j with
            | zero => rw [List.getD_cons_zero]; exact hlt
            | succ j' =>
                rw [List.getD_cons_succ]
                exact ih j' (Nat.lt_of_succ_lt_succ hj)
          · rw [if_neg hlt] at hj
            exact absurd hj (Nat.not_lt_zero j)

theorem selectThread_replicate_zero (m : Nat) :
    selectThread (List.replicate (m + 1) 0) = 0 := by
  cases m with
  | zero => rfl
  | succ m =>
      rw [List.replicate_succ, List.replicate_succ]
      rw [selectThread_cons 0 (0 :: List.replicate m 0) (by simp)]
      simp

theorem getD_replicate_append (k m : Nat) :
    (List.replicate k 1 ++ List.replicate (m + 1) 0).getD k 0 = 0 := by
  induction k with
  | zero => simp [List.replicate_succ]
  | succ k ih =>
      rw [List.replicate_succ, List.cons_append, List.getD_cons_succ]
      exact ih

theorem selectThread_replicate (k m : Nat) :
    selectThread (List.replicate k 1 ++ List.replicate (m + 1) 0) = k := by
  induction k with
  | zero => simpa using selectThread_replicate_zero m
  | succ k ih =>
      rw [List.replicate_succ, List.cons_append]
      rw [selectThread_cons 1 _ (by
        intro hc
        have := congrArg List.length hc
        simp at this)]
      rw [ih, getD_replicate_append]
      simp

theorem set_replicate_step (k m : Nat) :
    (List.replicate k 1 ++ List.replicate (m + 1) 0).set k 1
      = List.replicate (k + 1) 1 ++ List.replicate m 0 := by
  induction k with
  | zero => simp [List.replicate_succ]
  | succ k ih =>
      rw [List.replicate_succ, List.cons_append, List.set_cons_succ, ih]
      simp [List.replicate_succ]

theorem queueSeq_replicate (n : Nat) :
    ∀ (k m : Nat), n ≤ m →
      (queueSeq n (List.replicate k 1 ++ List.replicate m 0)).1
        = List.range' k n := by
  induction n with
  | zero => intro k m h; rfl
  | succ n ih =>
      intro k m h
      cases m with
      | zero => exact absurd h (by omega)
      | succ m' =>
          have hqueue : queue (List.replicate k 1 ++ List.replicate (m' + 1) 0)
              = (k, List.replicate (k + 1) 1 ++ List.replicate m' 0) := by
            unfold queue
            dsimp only
            rw [selectThread_replicate, getD_replicate_append, Nat.zero_add,
              set_replicate_step]
          rw [queueSeq]
          dsimp only
          rw [hqueue]
          dsimp only
          rw [ih (k + 1) m' (by omega)]
          rw [List.range'_succ]

theorem getD_set_ne (l : List Nat) (i j a d : Nat) (h : i ≠ j) :
    (l.set i a).getD j d = l.getD j d := by
  simp [List.getD, List.getElem?_set_ne h]

theorem getD_set_self (l : List Nat) (i a d : Nat) (h : i < l.length) :
    (l.set i a).getD i d = a := by
  simp [List.getD, List.getElem?_set_self, h]

/-- C5: `pool.queue` selects, at call time, the member thread with the
fewest pending tasks, breaking ties by lowest spawn index (the selected
index is a least-loaded index and every earlier index is strictly more
loaded), and invokes the callback with it synchronously; consequently,
with two idle threads, two `queue` calls issued before either settles land
on two different threads, and with all `size` threads idle, `size`
consecutive `queue` calls land on the `size` distinct threads `0..size-1`. -/
theorem pool_queue_least_loaded (loads : List Nat) (size : Nat) :
    (loads ≠ [] → selectThread loads < loads.length) ∧
    (∀ j, j < loads.length →
      loads.getD (selectThread loads) 0 ≤ loads.getD j 0) ∧
    (∀ j, j < selectThread loads →
      loads.getD (selectThread loads) 0 < loads.getD j 0) ∧
    (queue loads).1 = selectThread loads ∧
    (queueSeq size (List.replicate size 0)).1 = List.range size ∧
    ((queueSeq size (List.replicate size 0)).1).Nodup ∧
    (∀ i j, i < j → j < loads.length →
      loads.getD i 0 = 0 → loads.getD j 0 = 0 →
      (queue loads).1 ≠ (queue (queue loads).2).1) := by
  have hrange : (queueSeq size (List.replicate size 0)).1 = List.range size := by
    have h := queueSeq_replicate size 0 size (le_refl size)
    simpa [List.range_eq_range'] using h
  refine ⟨selectThread_lt_length loads, selectThread_min loads,
    selectThread_tie loads, rfl, hrange, ?_, ?_⟩
  · rw [hrange]; exact List.nodup_range size
  · intro i j hij hj hi0 hj0 heq
    have hi : i < loads.length := lt_trans hij hj
    have hne : loads ≠ [] := by
      intro hc
      rw [hc] at hi
      simp at hi
    have ha : selectThread loads < loads.length := selectThread_lt_length loads hne
    have ha0 : loads.getD (selectThread loads) 0 = 0 := by
      have h := selectThread_min loads i hi
      rw [hi0] at h
      exact Nat.le_zero.mp h
    obtain ⟨c, hcl, hca, hc0⟩ :
        ∃ c, c < loads.length ∧ c ≠ selectThread loads ∧ loads.getD c 0 = 0 := by
      by_cases h : i = selectThread loads
      · exact ⟨j, hj, by omega, hj0⟩
      · exact ⟨i, hi, h, hi0⟩
    have heq' : selectThread loads =
        selectThread (loads.set (selectThread loads)
          (loads.getD (selectThread loads) 0 + 1)) := heq
    have h3 := selectThread_min
      (loads.set (selectThread loads) (loads.getD (selectThread loads) 0 + 1)) c
      (by rw [List.length_set]; exact hcl)
    rw [← heq'] at h3
    rw [getD_set_ne _ _ _ _ _ (fun h => hca h.symm)] at h3
    rw [getD_set_self _ _ _ _ ha] at h3
    rw [ha0, hc0] at h3
    simp at h3

theorem le_foldr_max (xs : List Nat) (x : Nat) (h : x ∈ xs) :
    x ≤ xs.foldr max 0 := by
  induction xs with
  | nil => cases h
  | cons a rest ih =>
      simp only [List.foldr_cons]
      rcases List.mem_cons.mp h with h1 | h1
      · subst h1; exact Nat.le_max_left _ _
      · exact le_trans (ih h1) (Nat.le_max_right _ _)

/-- C8: `pool.settled()` never rejects and resolves exactly when the last
member `settled()` resolves (the completion instant is the maximum over the
members, hence at least every member settled instant and every task
settlement instant, the point at which each member pending count has
reached 0); `pool.terminate()` runs every member `terminate()`, and each
member closes its channel only after a delivered prefix settles all of
that member's pending tasks. -/
theorem pool_settled_and_terminate (members : List (List TaskFuture))
    (tmembers : List (List TaskUID × List WorkerMsg)) :
    (poolSettled members).2 = Except.ok () ∧
    (poolSettled members).1 =
      (members.map (fun m => (settled m).1)).foldr max 0 ∧
    (∀ m ∈ members, (settled m).1 ≤ (poolSettled members).1) ∧
    (∀ m ∈ members, ∀ f ∈ m, f.1 ≤ (poolSettled members).1) ∧
    poolTerminate tmembers =
      tmembers.map (fun mem => terminate mem.1 mem.2 none) ∧
    (∀ mem ∈ tmembers,
      TraceEvent.term TermStep.closedChannel ∈ terminate mem.1 mem.2 none →
      ∃ p q, mem.2 = p ++ q ∧ allSettled mem.1 p = true ∧
        terminate mem.1 mem.2 none =
          p.map TraceEvent.recv ++
            [.term (.sentTerminate none), .term .detachedListener,
             .term .closedChannel]) := by
  refine ⟨rfl, rfl, ?_, ?_, rfl, ?_⟩
  · intro m hm
    exact le_foldr_max _ _ (List.mem_map_of_mem _ hm)
  · intro m hm f hf
    exact le_trans (le_maxSettleTime m f hf)
      (le_foldr_max _ _ (List.mem_map_of_mem _ hm))
  · intro mem hmem h
    obtain ⟨p, q, heq, hset, htr⟩ := terminateRun_close mem.1 none mem.2 [] h
    exact ⟨p, q, heq, by simpa using hset, htr⟩

/-! ## Witnesses: the claim theorems applied at concrete inputs -/

theorem terminate_drains_before_close_witness :
    TraceEvent.term TermStep.closedChannel ∈
      terminate [1] [WorkerMsg.taskResult 1 0] none ∧
    ∃ p q, ([WorkerMsg.taskResult 1 0] : List WorkerMsg) = p ++ q ∧
      allSettled [1] p = true ∧
      (∀ uid ∈ ([1] : List TaskUID), ∃ m ∈ p, settlesMsg uid m = true) ∧
      terminate [1] [WorkerMsg.taskResult 1 0] none =
        p.map TraceEvent.recv ++
          [.term (.sentTerminate none), .term .detachedListener,
           .term .closedChannel] := by
  have h := terminate_drains_before_close [1] [WorkerMsg.taskResult 1 0] none
  have hc := h.2 (by decide)
  exact ⟨hc, h.1 hc⟩

theorem numQueuedTasks_accounting_witness :
    numQueuedTasks (proxyInvoke ⟨[], [], []⟩ 7 "m" []).1 = 1 ∧
    numQueuedTasks (handleMessage (proxyInvoke ⟨[], [], []⟩ 7 "m" []).1
      (WorkerMsg.taskResult 7 1)) = 0 := by
  have h := numQueuedTasks_accounting ⟨[], [], []⟩ 7 "m" [] 1 "x" (by decide)
  constructor
  · simpa [numQueuedTasks] using h.2.1
  · simpa [numQueuedTasks] using h.2.2.1

theorem spawn_semantics_witness :
    Spawn 10000 (HandshakeInput.firstMessage (WorkerMsg.init ["helloWorld"])) =
      { outcome := Except.ok { methods := ["helloWorld"], listenerAttached := true },
        channelClosed := false } ∧
    (Spawn 10000 HandshakeInput.timedOut).channelClosed = true := by
  have h1 := (spawn_semantics 10000
    (HandshakeInput.firstMessage (WorkerMsg.init ["helloWorld"]))).2.2.2.1
    ["helloWorld"] rfl
  have h2 := (spawn_semantics 10000 HandshakeInput.timedOut).1 rfl
  exact ⟨h1, by rw [h2]⟩

theorem dispatch_message_semantics_witness :
    handleMessage ⟨[5], [(5, PromiseState.pending)], []⟩
        (WorkerMsg.taskResult 5 42) =
      ⟨[], [(5, PromiseState.resolvedWith 42)], []⟩ ∧
    handleMessage ⟨[5], [(5, PromiseState.pending)], []⟩
        (WorkerMsg.uncaughtError "boom") =
      ⟨[5], [(5, PromiseState.pending)], ["Uncaught error in worker: boom"]⟩ := by
  have h := dispatch_message_semantics ⟨[5], [(5, PromiseState.pending)], []⟩
    5 42 "e" "boom" 9 ["m"]
  constructor
  · rw [(h.1 (by decide)).1]
    decide
  · rw [h.2.2.2.2.1]
    decide

theorem pool_queue_least_loaded_witness :
    (queueSeq 2 (List.replicate 2 0)).1 = List.range 2 ∧
    (queue [0, 0]).1 ≠ (queue (queue [0, 0]).2).1 := by
  have h := pool_queue_least_loaded [0, 0] 2
  exact ⟨h.2.2.2.2.1,
    h.2.2.2.2.2.2 0 1 (by decide) (by decide) (by decide) (by decide)⟩

theorem settled_resolved_semantics_witness :
    resolved [(3, TaskOutcome.resolvesWith 1), (1, TaskOutcome.rejectsWith "a"),
        (2, TaskOutcome.rejectsWith "b")] = (1, Except.error "a") := by
  have h := settled_resolved_semantics [(3, TaskOutcome.resolvesWith 1),
    (1, TaskOutcome.rejectsWith "a"), (2, TaskOutcome.rejectsWith "b")]
  exact (h.2.2.2.2.2 1 "a" (by decide)).1

theorem run_message_args_witness :
    (proxyInvoke ⟨[], [], []⟩ 3 "m"
      [RawArg.plain 1, RawArg.transfer 2 [10, 11], RawArg.plain 3]).2.2
      = [10, 11] := by
  have h := run_message_args_order_and_transfer_concat ⟨[], [], []⟩ 3 "m"
    [RawArg.plain 1, RawArg.transfer 2 [10, 11], RawArg.plain 3]
  rw [h.2]
  decide

theorem pool_settled_and_terminate_witness :
    (poolSettled [[(3, TaskOutcome.resolvesWith 1)],
        [(5, TaskOutcome.rejectsWith "a")]]).1 = 5 ∧
    (poolSettled [[(3, TaskOutcome.resolvesWith 1)],
        [(5, TaskOutcome.rejectsWith "a")]]).2 = Except.ok () ∧
    ∃ p q, ([WorkerMsg.taskResult 2 0] : List WorkerMsg) = p ++ q ∧
      allSettled [2] p = true ∧
      terminate [2] [WorkerMsg.taskResult 2 0] none =
        p.map TraceEvent.recv ++
          [.term (.sentTerminate none), .term .detachedListener,
           .term .closedChannel] := by
  have h := pool_settled_and_terminate
    [[(3, TaskOutcome.resolvesWith 1)], [(5, TaskOutcome.rejectsWith "a")]]
    [([2], [WorkerMsg.taskResult 2 0])]
  refine ⟨by rw [h.2.1]; decide, h.1, ?_⟩
  exact h.2.2.2.2.2 ([2], [WorkerMsg.taskResult 2 0]) (by simp) (by decide)

theorem run_message_transfer_descriptor_witness :
    (proxyInvoke ⟨[], [], []⟩ 3 "m"
      [RawArg.plain 1, RawArg.transfer 2 [10]]).2.1.args.getD 1 (RawArg.plain 0)
      = RawArg.transfer 2 [10] := by
  have h := run_message_keeps_transfer_descriptor ⟨[], [], []⟩ 3 "m"
    [RawArg.plain 1] [] 2 [10] (RawArg.plain 0)
  simpa using h.1

theorem eviction_precedes_settlement_witness :
    taskResultDispatch [5] (WorkerMsg.taskResult 5 42)
      = [Action.deleteTask 5, Action.resolveTask 5 42] :=
  (eviction_precedes_settlement ⟨[5], [(5, PromiseState.pending)], []⟩ 5 42 "x"
    (by decide) (by decide)).1

end ThreadsEs
